import Mathlib

/-!
Verification of the RoAnalyzer capture-buffer-and-encode pipeline
(`src/video/stream_puffer.rs`) against its natural-language specification.

The Rust code is shallowly embedded: `VecDeque` ring buffers become Lean
lists (front of the list = front of the deque), machine integers become
`Nat` with explicit `% 2 ^ w` where truncation matters, and the fallible
pre-encode stage of `save_last_to_mp4` becomes an `Except` value.  The
ffmpeg side effects (actual packet production, file I/O) are outside the
embedding; what is embedded is every branch, filter, index computation and
timestamp computation the code performs on its own data.
-/

namespace RoAnalyzer

/-- Embeds `struct VideoFrame { timestamp_ms: u32, data: Vec<u8> }`
(stream_puffer.rs lines 8-12).  `timestamp_ms` models a `u32` value,
`data` the raw byte vector. -/
structure VideoFrame where
  timestamp_ms : Nat
  data : List Nat
deriving DecidableEq, Repr

/-- Embeds `struct AudioChunk { timestamp_ms: u32, data: Vec<u8> }`
(stream_puffer.rs lines 14-18). -/
structure AudioChunk where
  timestamp_ms : Nat
  data : List Nat
deriving DecidableEq, Repr

instance : Inhabited VideoFrame := ⟨⟨0, []⟩⟩

instance : Inhabited AudioChunk := ⟨⟨0, []⟩⟩

/-- Embeds the generated protobuf message `Image` as used by `push_video`:
`timestamp_us` is the unsigned 64-bit microsecond timestamp, `image` the
raw RGB888 bytes. -/
structure Image where
  timestamp_us : Nat
  image : List Nat
deriving DecidableEq, Repr

/-- Embeds the generated protobuf message `AudioPacket` as used by
`push_audio`: `timestamp` is the unsigned 64-bit timestamp in microseconds,
`audio` the raw PCM s16le bytes. -/
structure AudioPacket where
  timestamp : Nat
  audio : List Nat
deriving DecidableEq, Repr

/-- Embeds `StreamPufferInner` (stream_puffer.rs lines 25-38): the two ring
buffers (as lists, front of the `VecDeque` first) plus the fixed
configuration. -/
structure PufferState where
  video_buf : List VideoFrame
  audio_buf : List AudioChunk
  max_frames : Nat
  max_audio_chunks : Nat
  target_fps : Nat
  audio_sample_rate : Nat
  audio_channels : Nat
  width : Nat
  height : Nat
deriving DecidableEq, Repr

/-- The bounded-insert step shared by `push_video` and `push_audio`
(stream_puffer.rs lines 76-80 and 92-96):
`if buf.len() >= max { buf.pop_front(); } buf.push_back(x)`. -/
def ringPush (cap : Nat) (buf : List α) (x : α) : List α :=
  (if cap ≤ buf.length then buf.drop 1 else buf) ++ [x]

/-- The frame constructed by `push_video` (stream_puffer.rs lines 71-74):
`timestamp_ms: (img.timestamp_us / 1000) as u32`.  The `as u32` cast is
the truncating reduction `% 2 ^ 32`. -/
def mkVideoFrame (img : Image) : VideoFrame :=
  { timestamp_ms := img.timestamp_us / 1000 % 2 ^ 32, data := img.image }

/-- The chunk constructed by `push_audio` (stream_puffer.rs lines 87-90):
`timestamp_ms: (pkt.timestamp / 1000) as u32`. -/
def mkAudioChunk (pkt : AudioPacket) : AudioChunk :=
  { timestamp_ms := pkt.timestamp / 1000 % 2 ^ 32, data := pkt.audio }

/-- Embeds `StreamPuffer::push_video` (stream_puffer.rs lines 70-81). -/
def pushVideo (s : PufferState) (img : Image) : PufferState :=
  { s with video_buf := ringPush s.max_frames s.video_buf (mkVideoFrame img) }

/-- Embeds `StreamPuffer::push_audio` (stream_puffer.rs lines 86-97). -/
def pushAudio (s : PufferState) (pkt : AudioPacket) : PufferState :=
  { s with audio_buf := ringPush s.max_audio_chunks s.audio_buf (mkAudioChunk pkt) }

/-- Embeds `video_frames.first().unwrap().timestamp_ms` (stream_puffer.rs line
119); total via `head?` with default 0, used only on non-empty snapshots
in the code. -/
def video_start (V : List VideoFrame) : Nat :=
  (V.head?.map fun f => f.timestamp_ms).getD 0

/-- Embeds `video_frames.last().unwrap().timestamp_ms` (stream_puffer.rs line 120). -/
def video_end (V : List VideoFrame) : Nat :=
  (V.getLast?.map fun f => f.timestamp_ms).getD 0

/-- Embeds `audio_chunks.first().unwrap().timestamp_ms` (stream_puffer.rs line 126). -/
def audio_start (A : List AudioChunk) : Nat :=
  (A.head?.map fun c => c.timestamp_ms).getD 0

/-- Embeds `audio_chunks.last().unwrap().timestamp_ms` (stream_puffer.rs line 127). -/
def audio_end (A : List AudioChunk) : Nat :=
  (A.getLast?.map fun c => c.timestamp_ms).getD 0

/-- Embeds `overlap_start = video_start.max(audio_start)` (stream_puffer.rs line 144). -/
def overlap_start (V : List VideoFrame) (A : List AudioChunk) : Nat :=
  max (video_start V) (audio_start A)

/-- Embeds `overlap_end = video_end.min(audio_end)` (stream_puffer.rs line 145). -/
def overlap_end (V : List VideoFrame) (A : List AudioChunk) : Nat :=
  min (video_end V) (audio_end A)

/-- The synchronizer result `(have_audio, filtered_video, filtered_audio)`
bound at stream_puffer.rs line 122. -/
structure SyncResult where
  have_audio : Bool
  video : List VideoFrame
  audio : List AudioChunk
deriving DecidableEq, Repr

/-- Embeds the synchronizer branch of `save_last_to_mp4`
(stream_puffer.rs lines 122-178): empty audio or a degenerate overlap
yields video-only with all frames; otherwise both snapshots are filtered
to the inclusive overlap window. -/
def synchronize (video_frames : List VideoFrame) (audio_chunks : List AudioChunk) :
    SyncResult :=
  if audio_chunks.isEmpty then
    ⟨false, video_frames, []⟩
  else if overlap_end video_frames audio_chunks ≤ overlap_start video_frames audio_chunks then
    ⟨false, video_frames, []⟩
  else
    ⟨true,
     video_frames.filter fun f =>
       overlap_start video_frames audio_chunks ≤ f.timestamp_ms &&
         f.timestamp_ms ≤ overlap_end video_frames audio_chunks,
     audio_chunks.filter fun c =>
       overlap_start video_frames audio_chunks ≤ c.timestamp_ms &&
         c.timestamp_ms ≤ overlap_end video_frames audio_chunks⟩

/-- The two error returns of `save_last_to_mp4` that precede any encoding
or file output: `"no video frames available to save"` (line 115) and
`"no video frames available after filtering"` (line 181). -/
inductive SaveErr where
  | emptyBuffer
  | emptyAfterFilter
deriving DecidableEq, Repr

/-- Embeds the pre-encode stage of `StreamPuffer::save_last_to_mp4`
(stream_puffer.rs lines 114-182) on the two snapshots: the empty-video
check, the synchronizer, and the post-filter emptiness check.  An `ok`
result is exactly the data handed to `encode_to_mp4`; on `error` the
encode stage (and hence any file write) is never reached. -/
def save_window (video_frames : List VideoFrame) (audio_chunks : List AudioChunk) :
    Except SaveErr SyncResult :=
  if video_frames.isEmpty then
    .error .emptyBuffer
  else
    let r := synchronize video_frames audio_chunks
    if r.video.isEmpty then .error .emptyAfterFilter else .ok r

/-- Embeds `ffmpeg::Rational` as a numerator/denominator pair (both `i32` in the
source; the values used here are small positive constants). -/
structure Rational where
  num : Int
  den : Int
deriving DecidableEq, Repr

/-- Pixel formats named by `encode_to_mp4`. -/
inductive PixelFormat where
  | RGB24
  | YUV420P
deriving DecidableEq, Repr

/-- The video encoder parameters set by `encode_to_mp4`. -/
structure VideoEncoderCfg where
  width : Nat
  height : Nat
  format : PixelFormat
  time_base : Rational
  frame_rate : Rational
deriving DecidableEq, Repr

/-- Embeds the video encoder configuration of `encode_to_mp4`
(stream_puffer.rs lines 254-258): `set_width(width)`,
`set_height(height)`, `set_format(Pixel::YUV420P)`,
`set_time_base(Rational::new(1, fps as i32))`,
`set_frame_rate(Some(Rational::new(fps as i32, 1)))`. -/
def mkVideoEncoder (width height fps : Nat) : VideoEncoderCfg :=
  { width := width
    height := height
    format := .YUV420P
    time_base := ⟨1, (fps : Int)⟩
    frame_rate := ⟨(fps : Int), 1⟩ }

/-- The source time base every emitted video packet is rescaled from:
`Rational::new(1, 1_000)` at stream_puffer.rs lines 372 and 389
(commented there as "From encoder time_base (milliseconds)"). -/
def videoPacketRescaleFrom : Rational := ⟨1, 1000⟩

/-- Embeds `expected_size = (width * height * 3) as usize`
(stream_puffer.rs line 331). -/
def expected_size (width height : Nat) : Nat := width * height * 3

/-- The per-frame validation of `encode_to_mp4` (stream_puffer.rs lines
331-340): a frame is encoded iff its byte length equals
`width * height * 3`; otherwise it is skipped with `continue`. -/
def frameWellFormed (width height : Nat) (f : VideoFrame) : Bool :=
  f.data.length == expected_size width height

/-- Wrapping `u32` subtraction: for `a b < 2 ^ 32` this is the value of
`a.wrapping_sub(b)`, and of the release-mode `a - b` in
`(vframe.timestamp_ms - first_timestamp) as i64`. -/
def sub32 (a b : Nat) : Nat := (a + 2 ^ 32 - b) % 2 ^ 32

/-- The sequence of video presentation timestamps assigned by
`encode_to_mp4` (stream_puffer.rs lines 324-360): `first_timestamp` is the
first snapshot frame's timestamp, malformed frames are skipped before the
PTS assignment, and each encoded frame gets
`pts = vframe.timestamp_ms - first_timestamp`. -/
def encodeVideoPts (width height : Nat) (video_frames : List VideoFrame) : List Nat :=
  (video_frames.filter (frameWellFormed width height)).map fun f =>
    sub32 f.timestamp_ms (video_start video_frames)

/-- The number of planes filled per encoded audio frame by `encode_to_mp4`
(stream_puffer.rs lines 444-464): the frame is built with
`ChannelLayout::STEREO` and exactly planes 0 and 1 are written, regardless
of the configured channel count. -/
def audioFramePlaneCount : Nat := 2

/-- The guard of the audio frame-extraction loop
(stream_puffer.rs line 443): `sample_buffer.len() >= frame_size * channels`. -/
def audioLoopGuard (bufLen frame_size channels : Nat) : Bool :=
  frame_size * channels ≤ bufLen

/-- The samples read into plane `ch` of one audio frame
(stream_puffer.rs lines 452-464): index `i * 2 + ch` of the interleaved
accumulator for `i < frame_size` (`ch = 0` is the left channel read at
`sample_buffer[i * 2]`, `ch = 1` the right at `sample_buffer[i * 2 + 1]`).
`none` models an out-of-bounds access (a panic in the source). -/
def planeSamples (sample_buffer : List α) (frame_size ch : Nat) : Option (List α) :=
  (List.range frame_size).mapM fun i => sample_buffer.get? (i * 2 + ch)

/-- The accumulator after one loop iteration
(stream_puffer.rs line 467): `sample_buffer.drain(0..frame_size * channels)`. -/
def audioDrain (sample_buffer : List α) (frame_size channels : Nat) : List α :=
  sample_buffer.drop (frame_size * channels)

/-- An externally observable operation on one `StreamPuffer`: a video
push, an audio push, or a `save_last_to_mp4` call. -/
inductive Op where
  | pushV (img : Image)
  | pushA (pkt : AudioPacket)
  | save
deriving DecidableEq, Repr

/-- The effect of one operation on the buffer state.  `save` clones both
buffers under read locks (stream_puffer.rs lines 104-112) and then works
only on the clones, so its effect on the state is the identity. -/
def stepOp (s : PufferState) : Op → PufferState
  | .pushV img => pushVideo s img
  | .pushA pkt => pushAudio s pkt
  | .save => s

/-- The buffer state after a sequence of operations. -/
def runOps (s : PufferState) (ops : List Op) : PufferState :=
  ops.foldl stepOp s

/-- Whether an operation is one of the two push calls. -/
def opIsPush : Op → Bool
  | .pushV _ => true
  | .pushA _ => true
  | .save => false

/-- The video images pushed by a sequence of operations, in call order. -/
def videoPushes (ops : List Op) : List Image :=
  ops.filterMap fun o =>
    match o with
    | .pushV img => some img
    | _ => none

/-- The audio packets pushed by a sequence of operations, in call order. -/
def audioPushes (ops : List Op) : List AudioPacket :=
  ops.filterMap fun o =>
    match o with
    | .pushA pkt => some pkt
    | _ => none

/-- Dropping one element distributes over an append with a non-empty left part. -/
lemma drop_one_append {l₁ l₂ : List α} (h : l₁ ≠ []) :
    (l₁ ++ l₂).drop 1 = l₁.drop 1 ++ l₂ := by
  cases l₁ with
  | nil => exact absurd rfl h
  | cons a t => simp

/-- Folding `ringPush` over any input list keeps exactly the trailing
window: the fold of `l` onto an accumulator within capacity equals the
concatenation with everything before the last `cap` elements dropped. -/
lemma foldl_ringPush {α : Type} (cap : Nat) (hc : 1 ≤ cap) :
    ∀ (l acc : List α), acc.length ≤ cap →
      l.foldl (ringPush cap) acc = (acc ++ l).drop (acc.length + l.length - cap) := by
  intro l
  induction l with
  | nil =>
    intro acc hacc
    simp [Nat.sub_eq_zero_of_le hacc]
  | cons x l ih =>
    intro acc hacc
    rw [List.foldl_cons]
    by_cases h : cap ≤ acc.length
    · have hlen : acc.length = cap := Nat.le_antisymm hacc h
      have hne : acc ≠ [] := by
        intro hnil
        rw [hnil] at hlen
        simp at hlen
        omega
    -- at capacity: pop the front, push the new element
      have hstep : ringPush cap acc x = acc.drop 1 ++ [x] := by
        simp [ringPush, h]
      have hlen' : (acc.drop 1 ++ [x]).length = cap := by
        simp
        omega
      rw [hstep, ih _ (le_of_eq hlen'), hlen']
      have hidx : cap + l.length - cap = l.length := by omega
      have hidx2 : acc.length + (x :: l).length - cap = l.length + 1 := by
        simp
        omega
      rw [hidx, hidx2]
      have hsplit : acc.drop 1 ++ [x] ++ l = (acc ++ x :: l).drop 1 := by
        rw [drop_one_append hne]
        simp
      rw [hsplit, List.drop_drop, Nat.add_comm]
    · have hlt : acc.length < cap := Nat.lt_of_not_le h
    -- below capacity: plain push
      have hstep : ringPush cap acc x = acc ++ [x] := by
        simp [ringPush, h]
      have hlen' : (acc ++ [x]).length ≤ cap := by
        simp
        omega
      rw [hstep, ih _ hlen']
      have hidx : (acc ++ [x]).length + l.length - cap = acc.length + (x :: l).length - cap := by
        simp
        omega
      rw [hidx]
      congr 1
      simp

/-- The state after running operations has the same configuration fields
as the initial state (only the buffers ever change). -/
lemma runOps_max_frames (s : PufferState) (ops : List Op) :
    (runOps s ops).max_frames = s.max_frames ∧
    (runOps s ops).max_audio_chunks = s.max_audio_chunks := by
  induction ops generalizing s with
  | nil => exact ⟨rfl, rfl⟩
  | cons o ops ih =>
    cases o with
    | pushV img => exact ih (pushVideo s img)
    | pushA pkt => exact ih (pushAudio s pkt)
    | save => exact ih s

/-- The video buffer after a run of operations is the fold of `ringPush`
over exactly the pushed video frames; audio pushes and saves do not touch it. -/
lemma runOps_video (s : PufferState) (ops : List Op) :
    (runOps s ops).video_buf =
      ((videoPushes ops).map mkVideoFrame).foldl (ringPush s.max_frames) s.video_buf := by
  induction ops generalizing s with
  | nil => rfl
  | cons o ops ih =>
    cases o with
    | pushV img =>
      have h1 : runOps s (Op.pushV img :: ops) = runOps (pushVideo s img) ops := rfl
      rw [h1, ih (pushVideo s img)]
      rfl
    | pushA pkt =>
      have h1 : runOps s (Op.pushA pkt :: ops) = runOps (pushAudio s pkt) ops := rfl
      rw [h1, ih (pushAudio s pkt)]
      rfl
    | save =>
      exact ih s

/-- Symmetric statement for the audio buffer. -/
lemma runOps_audio (s : PufferState) (ops : List Op) :
    (runOps s ops).audio_buf =
      ((audioPushes ops).map mkAudioChunk).foldl (ringPush s.max_audio_chunks) s.audio_buf := by
  induction ops generalizing s with
  | nil => rfl
  | cons o ops ih =>
    cases o with
    | pushV img =>
      have h1 : runOps s (Op.pushV img :: ops) = runOps (pushVideo s img) ops := rfl
      rw [h1, ih (pushVideo s img)]
      rfl
    | pushA pkt =>
      have h1 : runOps s (Op.pushA pkt :: ops) = runOps (pushAudio s pkt) ops := rfl
      rw [h1, ih (pushAudio s pkt)]
      rfl
    | save =>
      exact ih s

/-- In a list with pairwise non-decreasing keys, the first element's key
bounds every member's key from below. -/
lemma pairwise_head_le {α : Type} (f : α → Nat) {l : List α}
    (hs : l.Pairwise fun u v => f u ≤ f v) {x : α} (hx : x ∈ l) :
    ((l.head?.map f).getD 0) ≤ f x := by
  cases l with
  | nil => cases hx
  | cons a t =>
    simp only [List.head?_cons, Option.map_some, Option.getD_some]
    rcases List.mem_cons.mp hx with rfl | hx'
    · exact le_refl _
    · exact (List.pairwise_cons.mp hs).1 x hx'

/-- In a list with pairwise non-decreasing keys, the last element's key
bounds every member's key from above. -/
lemma pairwise_le_getLast {α : Type} (f : α → Nat) :
    ∀ {l : List α}, l.Pairwise (fun u v => f u ≤ f v) →
      ∀ x ∈ l, f x ≤ ((l.getLast?.map f).getD 0) := by
  intro l
  induction l with
  | nil => intro _ x hx; cases hx
  | cons a t ih =>
    intro hs x hx
    cases t with
    | nil =>
      rcases List.mem_cons.mp hx with rfl | hx'
      · simp
      · cases hx'
    | cons b t' =>
      have hend : ((a :: b :: t').getLast?.map f).getD 0 = (((b :: t').getLast?.map f).getD 0) := by
        simp [List.getLast?_cons_cons]
      rw [hend]
      rcases List.mem_cons.mp hx with rfl | hx'
      · have hlast_mem : (b :: t').getLast (by simp) ∈ b :: t' := List.getLast_mem _
        have hle : f x ≤ f ((b :: t').getLast (by simp)) :=
          (List.pairwise_cons.mp hs).1 _ hlast_mem
        have heq : (b :: t').getLast? = some ((b :: t').getLast (by simp)) := by
          rw [List.getLast?_eq_getLast]
        rw [heq]
        simpa using hle
      · exact ih (List.pairwise_cons.mp hs).2 x hx'

/-- Wrapping `u32` subtraction agrees with truncated subtraction when the
minuend is in range and at least the subtrahend. -/
lemma sub32_eq {a b : Nat} (hba : b ≤ a) (ha : a < 2 ^ 32) : sub32 a b = a - b := by
  unfold sub32
  omega

/-- Wrapping `u32` subtraction of a value from itself is zero. -/
lemma sub32_self (a : Nat) : sub32 a a = 0 := by
  unfold sub32
  omega

/-- C1 (amended: capacity at least 1): starting from empty buffers, after
any sequence of `push_video` / `push_audio` / `save_last_to_mp4` calls,
each ring buffer holds at most its capacity and its contents are exactly
the most recently pushed `min(N, total_pushes)` elements of its kind in
push order (the `drop (total - N)` suffix of the pushed sequence). -/
theorem ringPush_eviction_invariant (s : PufferState) (ops : List Op)
    (hvc : 1 ≤ s.max_frames) (hac : 1 ≤ s.max_audio_chunks)
    (hv0 : s.video_buf = []) (ha0 : s.audio_buf = []) :
    (runOps s ops).video_buf.length ≤ s.max_frames ∧
    (runOps s ops).video_buf =
      ((videoPushes ops).map mkVideoFrame).drop ((videoPushes ops).length - s.max_frames) ∧
    (runOps s ops).audio_buf.length ≤ s.max_audio_chunks ∧
    (runOps s ops).audio_buf =
      ((audioPushes ops).map mkAudioChunk).drop ((audioPushes ops).length - s.max_audio_chunks) := by
  have hv := runOps_video s ops
  have ha := runOps_audio s ops
  rw [hv0] at hv
  rw [ha0] at ha
  rw [foldl_ringPush s.max_frames hvc _ [] (by simp)] at hv
  rw [foldl_ringPush s.max_audio_chunks hac _ [] (by simp)] at ha
  simp only [List.nil_append, List.length_nil, Nat.zero_add, List.length_map] at hv ha
  refine ⟨?_, hv, ?_, ha⟩
  · rw [hv]
    simp
    omega
  · rw [ha]
    simp
    omega

/-- Concrete initial state for exercising the eviction invariant:
capacities 2 (video) and 2 (audio). -/
def evictS0 : PufferState :=
  { video_buf := [], audio_buf := [], max_frames := 2, max_audio_chunks := 2
    target_fps := 30, audio_sample_rate := 44100, audio_channels := 2
    width := 2, height := 2 }

/-- Concrete operation sequence: three video pushes, one audio push and a
save interleaved. -/
def evictOps : List Op :=
  [Op.pushV ⟨1000, [1]⟩, Op.pushA ⟨2000, [2]⟩, Op.pushV ⟨3000, [3]⟩,
   Op.save, Op.pushV ⟨5000, [5]⟩]

/-- Witness for C1 at a concrete input: with capacity 2 and three video
pushes, the video buffer retains exactly the last two frames. -/
theorem ringPush_eviction_invariant_witness :
    (runOps evictS0 evictOps).video_buf.length ≤ evictS0.max_frames ∧
    (runOps evictS0 evictOps).video_buf =
      ((videoPushes evictOps).map mkVideoFrame).drop
        ((videoPushes evictOps).length - evictS0.max_frames) ∧
    (runOps evictS0 evictOps).audio_buf.length ≤ evictS0.max_audio_chunks ∧
    (runOps evictS0 evictOps).audio_buf =
      ((audioPushes evictOps).map mkAudioChunk).drop
        ((audioPushes evictOps).length - evictS0.max_audio_chunks) :=
  ringPush_eviction_invariant evictS0 evictOps (by decide) (by decide) (by decide) (by decide)

/-- C1 counterexample: with capacity `N = 0` the code's
`if len >= max { pop_front() }` check still inserts, so after one push the
buffer holds one element and `len() <= N` fails. -/
theorem ringPush_capacity_zero_counterexample :
    (runOps { evictS0 with max_frames := 0 } [Op.pushV ⟨0, []⟩]).video_buf.length = 1 ∧
    ¬((runOps { evictS0 with max_frames := 0 } [Op.pushV ⟨0, []⟩]).video_buf.length ≤ 0) := by
  decide

/-- Concrete snapshots for C2: two video frames at 0 and 100 ms, two audio
chunks at 40 and 60 ms.  The overlap window is `[40, 60]`, non-degenerate,
yet no video frame lies inside it. -/
def noFrameV : List VideoFrame := [⟨0, []⟩, ⟨100, []⟩]

/-- The audio side of the C2 counterexample snapshot. -/
def noFrameA : List AudioChunk := [⟨40, []⟩, ⟨60, []⟩]

/-- C2 counterexample: `save_last_to_mp4` also fails with a
no-video-frames error (`"no video frames available after filtering"`,
line 181) on a NON-empty video snapshot, when the overlap filter removes
every frame — so failing with the no-video-frames error is not equivalent
to the snapshot being empty. -/
theorem save_window_nonempty_failure_counterexample :
    save_window noFrameV noFrameA = .error .emptyAfterFilter ∧ noFrameV ≠ [] :=
  ⟨by rfl, by decide⟩

/-- C2 (amended): the `EmptyBuffer` error of line 115 is returned exactly
when the video snapshot is empty, regardless of the audio snapshot, and
before the encode stage (so no file is written); an empty audio snapshot
alone never causes the save to fail; additionally the save can fail with
the distinct post-filter error of line 181, and only on a non-empty
snapshot whose synchronized video part is empty. -/
theorem save_window_empty_buffer_amended (V : List VideoFrame) (A : List AudioChunk) :
    (save_window V A = .error .emptyBuffer ↔ V = []) ∧
    (V ≠ [] → save_window V [] = .ok ⟨false, V, []⟩) ∧
    (save_window V A = .error .emptyAfterFilter →
      V ≠ [] ∧ (synchronize V A).video = []) := by
  by_cases hV : V = []
  · subst hV
    refine ⟨by simp [save_window], fun h => absurd rfl h, fun h => ?_⟩
    simp [save_window] at h
  · have hVe : V.isEmpty = false := by
      simp [List.isEmpty_iff, hV]
    refine ⟨?_, fun _ => ?_, fun h => ?_⟩
    · simp only [save_window, hVe, Bool.false_eq_true, if_false]
      constructor
      · intro h
        by_cases hs : (synchronize V A).video.isEmpty <;> simp [hs] at h
      · intro h
        exact absurd h hV
    · simp [save_window, hVe, synchronize, hV]
    · refine ⟨hV, ?_⟩
      simp only [save_window, hVe, Bool.false_eq_true, if_false] at h
      by_cases hs : (synchronize V A).video.isEmpty
      · exact List.isEmpty_iff.mp hs
      · simp [hs] at h

/-- Witness for the amended C2 at a concrete input: a non-empty video
snapshot with an empty audio snapshot saves successfully as video-only. -/
theorem save_window_empty_buffer_amended_witness :
    save_window noFrameV [] = .ok ⟨false, noFrameV, []⟩ :=
  (save_window_empty_buffer_amended noFrameV noFrameA).2.1 (by decide)

/-- C3: for a non-empty video snapshot, an empty audio snapshot or a
degenerate overlap window (`overlap_end <= overlap_start`) makes the
synchronizer output video-only — `has_audio = false`, all of `V`
unchanged, empty audio — and the pre-encode stage succeeds. -/
theorem save_window_video_only (V : List VideoFrame) (A : List AudioChunk)
    (hV : V ≠ [])
    (h : A = [] ∨ overlap_end V A ≤ overlap_start V A) :
    synchronize V A = ⟨false, V, []⟩ ∧ save_window V A = .ok ⟨false, V, []⟩ := by
  have hVe : V.isEmpty = false := by
    simp [List.isEmpty_iff, hV]
  have hsync : synchronize V A = ⟨false, V, []⟩ := by
    rcases h with h | h
    · simp [synchronize, h]
    · by_cases hA : A.isEmpty
      · simp [synchronize, hA]
      · simp [synchronize, hA, h]
  refine ⟨hsync, ?_⟩
  simp [save_window, hVe, hsync]

/-- The spec's no-overlap example: video spanning 0-100 ms. -/
def vSpan : List VideoFrame := [⟨0, []⟩, ⟨100, []⟩]

/-- The spec's no-overlap example: audio spanning 200-300 ms. -/
def aSpan : List AudioChunk := [⟨200, []⟩, ⟨300, []⟩]

/-- Witness for C3 at the spec's own example: video spanning 0-100 ms and
audio spanning 200-300 ms degrade gracefully to a video-only save. -/
theorem save_window_video_only_witness :
    synchronize vSpan aSpan = ⟨false, vSpan, []⟩ ∧
    save_window vSpan aSpan = .ok ⟨false, vSpan, []⟩ :=
  save_window_video_only vSpan aSpan (by decide) (Or.inr (by decide))

/-- Video snapshot for the C4 counterexample: frames at 0 and 1000 ms. -/
def wideV : List VideoFrame := [⟨0, []⟩, ⟨1000, []⟩]

/-- Audio snapshot for the C4 counterexample: chunks at 100, 500, 200 ms —
timestamps not non-decreasing, so the middle chunk lies outside the
first-to-last range `[100, 200]`. -/
def jumbledA : List AudioChunk := [⟨100, []⟩, ⟨500, []⟩, ⟨200, []⟩]

/-- C4 counterexample: with the audio range (first/last timestamps)
contained in the video range and a non-degenerate overlap, the chunk at
500 ms is dropped by the overlap filter, so not every audio chunk is
retained. -/
theorem synchronize_unsorted_audio_counterexample :
    video_start wideV ≤ audio_start jumbledA ∧
    audio_end jumbledA ≤ video_end wideV ∧
    overlap_start wideV jumbledA < overlap_end wideV jumbledA ∧
    (synchronize wideV jumbledA).have_audio = true ∧
    (synchronize wideV jumbledA).audio ≠ jumbledA := by
  decide

/-- C4 (amended): with non-empty audio and a non-degenerate overlap
window, both snapshots are filtered to exactly the elements whose
timestamp lies in the closed interval
`[overlap_start, overlap_end]`; and when the audio timestamps are
non-decreasing and the audio range is contained in the video range, every
audio chunk is retained. -/
theorem synchronize_overlap_filter_amended (V : List VideoFrame) (A : List AudioChunk)
    (hA : A ≠ []) (hov : overlap_start V A < overlap_end V A) :
    synchronize V A =
      ⟨true,
       V.filter fun f =>
         overlap_start V A ≤ f.timestamp_ms && f.timestamp_ms ≤ overlap_end V A,
       A.filter fun c =>
         overlap_start V A ≤ c.timestamp_ms && c.timestamp_ms ≤ overlap_end V A⟩ ∧
    (A.Pairwise (fun c1 c2 => c1.timestamp_ms ≤ c2.timestamp_ms) →
      video_start V ≤ audio_start A → audio_end A ≤ video_end V →
      (synchronize V A).audio = A) := by
  have hAe : A.isEmpty = false := by
    simp [List.isEmpty_iff, hA]
  have hsync : synchronize V A =
      ⟨true,
       V.filter fun f =>
         overlap_start V A ≤ f.timestamp_ms && f.timestamp_ms ≤ overlap_end V A,
       A.filter fun c =>
         overlap_start V A ≤ c.timestamp_ms && c.timestamp_ms ≤ overlap_end V A⟩ := by
    simp [synchronize, hAe, Nat.not_le.mpr hov]
  refine ⟨hsync, fun hs hva hav => ?_⟩
  rw [hsync]
  have hos : overlap_start V A = audio_start A := max_eq_right hva
  have hoe : overlap_end V A = audio_end A := min_eq_right hav
  refine List.filter_eq_self.mpr fun c hc => ?_
  have h1 : audio_start A ≤ c.timestamp_ms := pairwise_head_le _ hs hc
  have h2 : c.timestamp_ms ≤ audio_end A := pairwise_le_getLast _ hs c hc
  rw [hos, hoe]
  simpa using ⟨h1, h2⟩

/-- Sorted snapshots realizing the spec's overlap example: video spanning
10-500 ms with a frame at 60 ms inside the overlap. -/
def specV : List VideoFrame := [⟨10, []⟩, ⟨60, []⟩, ⟨500, []⟩]

/-- Audio spanning 50-300 ms, contained in the video range. -/
def specA : List AudioChunk := [⟨50, []⟩, ⟨300, []⟩]

/-- Witness for the amended C4 at the spec's overlap example: audio
contained in the video range with sorted timestamps is retained in full. -/
theorem synchronize_overlap_filter_amended_witness :
    (synchronize specV specA).audio = specA :=
  (synchronize_overlap_filter_amended specV specA (by decide) (by decide)).2
    (by decide) (by decide) (by decide)

/-- C5 (code bug): `encode_to_mp4` sets width, height, the YUV planar
pixel format and the target frame rate as specified, but configures the
video encoder time base as `1/fps` (line 257), while every emitted packet
is rescaled from `1/1000` (lines 372 and 389, commented "From encoder
time_base (milliseconds)") and frame PTS values are assigned in
milliseconds — so the configured time base contradicts the 1-millisecond
time base the rest of the code (and the spec) assumes, for every
`fps ≠ 1000`; shown here at the concrete configuration 640x480 at 30 fps. -/
theorem video_time_base_mismatch :
    (mkVideoEncoder 640 480 30).width = 640 ∧
    (mkVideoEncoder 640 480 30).height = 480 ∧
    (mkVideoEncoder 640 480 30).format = PixelFormat.YUV420P ∧
    (mkVideoEncoder 640 480 30).frame_rate = ⟨30, 1⟩ ∧
    (mkVideoEncoder 640 480 30).time_base = ⟨1, 30⟩ ∧
    videoPacketRescaleFrom = ⟨1, 1000⟩ ∧
    (mkVideoEncoder 640 480 30).time_base ≠ videoPacketRescaleFrom := by
  refine ⟨rfl, rfl, rfl, rfl, rfl, rfl, ?_⟩
  intro h
  simpa [mkVideoEncoder, videoPacketRescaleFrom] using congrArg Rational.den h

/-- C6 (code bug): the audio frame-extraction loop drains
`frame_size * channels` samples per iteration, but de-interleaves with a
hard-coded stereo layout — exactly two planes (`ChannelLayout::STEREO`,
planes 0 and 1) read at stride-2 indices `i*2` and `i*2+1` — regardless of
the configured channel count.  For one configured channel with
`frame_size = 2` and an accumulator of exactly 2 samples the loop guard
holds, yet both plane reads index past the end of the accumulator (a
panic in the source), instead of de-interleaving 2 samples into one
plane; for two channels the stride-2 reads match the claim. -/
theorem audio_deinterleave_stereo_hardcode :
    audioLoopGuard 2 2 1 = true ∧
    planeSamples ([10, 20] : List Int) 2 0 = none ∧
    planeSamples ([10, 20] : List Int) 2 1 = none ∧
    audioFramePlaneCount = 2 ∧
    audioFramePlaneCount ≠ 1 ∧
    audioDrain ([10, 20] : List Int) 2 1 = [] ∧
    planeSamples ([10, 20, 30, 40] : List Int) 2 0 = some [10, 30] ∧
    planeSamples ([10, 20, 30, 40] : List Int) 2 1 = some [20, 40] := by
  refine ⟨rfl, by rfl, by rfl, rfl, by decide, rfl, by rfl, by rfl⟩

/-- Snapshot for the C7 counterexample at resolution 1x1 (expected frame
size 3 bytes): the first frame is malformed (0 bytes) and is skipped, the
second is well-formed at 100 ms. -/
def skipFirstV : List VideoFrame := [⟨0, []⟩, ⟨100, [7, 7, 7]⟩]

/-- C7 counterexample: with non-decreasing timestamps but a malformed
first frame, every encoded frame still gets
`pts = timestamp_ms - first_timestamp`, but the malformed first frame is
skipped before PTS assignment, so the first encoded packet has PTS 100 and
the video track does not begin at relative time 0. -/
theorem video_pts_malformed_first_counterexample :
    skipFirstV.Pairwise (fun f g => f.timestamp_ms ≤ g.timestamp_ms) ∧
    encodeVideoPts 1 1 skipFirstV = [100] ∧
    (encodeVideoPts 1 1 skipFirstV).head? ≠ some 0 := by
  refine ⟨by decide, by rfl, by decide⟩

/-- C7 (amended): for a non-empty video sequence with non-decreasing
in-range timestamps, every encoded (well-formed) frame's PTS equals
`timestamp_ms - first_frame.timestamp_ms`; provided the first frame of
the sequence is well-formed, the first encoded PTS is 0, so the track
begins at relative time 0. -/
theorem video_pts_rebased_amended (width height : Nat) (V : List VideoFrame)
    (hne : V ≠ [])
    (hsort : V.Pairwise fun f g => f.timestamp_ms ≤ g.timestamp_ms)
    (hbound : ∀ f ∈ V, f.timestamp_ms < 2 ^ 32)
    (hfirst : frameWellFormed width height V.headI = true) :
    encodeVideoPts width height V =
      (V.filter (frameWellFormed width height)).map
        (fun f => f.timestamp_ms - video_start V) ∧
    (encodeVideoPts width height V).head? = some 0 := by
  have hmain : encodeVideoPts width height V =
      (V.filter (frameWellFormed width height)).map
        (fun f => f.timestamp_ms - video_start V) := by
    unfold encodeVideoPts
    refine List.map_congr_left fun f hf => ?_
    have hfV : f ∈ V := List.mem_of_mem_filter hf
    exact sub32_eq (pairwise_head_le _ hsort hfV) (hbound f hfV)
  refine ⟨hmain, ?_⟩
  cases V with
  | nil => exact absurd rfl hne
  | cons v t =>
    have hv : frameWellFormed width height v = true := hfirst
    unfold encodeVideoPts
    rw [List.filter_cons_of_pos hv]
    simp [video_start, sub32_self]

/-- Sorted, all-well-formed snapshot at 1x1 for the C7 witness. -/
def okV : List VideoFrame := [⟨40, [1, 2, 3]⟩, ⟨45, [4, 5, 6]⟩]

/-- Witness for the amended C7: a sorted two-frame sequence starting at
40 ms is rebased to PTS 0 and 5. -/
theorem video_pts_rebased_amended_witness :
    encodeVideoPts 1 1 okV =
      (okV.filter (frameWellFormed 1 1)).map
        (fun f => f.timestamp_ms - video_start okV) ∧
    (encodeVideoPts 1 1 okV).head? = some 0 :=
  video_pts_rebased_amended 1 1 okV (by decide) (by decide) (by decide) (by decide)

/-- C8: a snapshot containing one malformed frame (byte length different
from `width*height*3`) among otherwise well-formed frames still saves
successfully — the pre-encode stage returns `ok` — and the encode loop
skips exactly the malformed frame, encoding the other `N - 1` frames. -/
theorem malformed_frame_skip (width height : Nat) (pre post : List VideoFrame)
    (bad : VideoFrame)
    (hpre : ∀ f ∈ pre, frameWellFormed width height f = true)
    (hpost : ∀ f ∈ post, frameWellFormed width height f = true)
    (hbad : frameWellFormed width height bad = false) :
    save_window (pre ++ bad :: post) [] = .ok ⟨false, pre ++ bad :: post, []⟩ ∧
    (pre ++ bad :: post).filter (frameWellFormed width height) = pre ++ post ∧
    (encodeVideoPts width height (pre ++ bad :: post)).length =
      (pre ++ bad :: post).length - 1 := by
  have hVe : (pre ++ bad :: post).isEmpty = false := by simp
  have hsave : save_window (pre ++ bad :: post) [] = .ok ⟨false, pre ++ bad :: post, []⟩ := by
    simp [save_window, synchronize, hVe]
  have hfilter : (pre ++ bad :: post).filter (frameWellFormed width height) = pre ++ post := by
    rw [List.filter_append, List.filter_cons_of_neg (by simp [hbad]),
      List.filter_eq_self.mpr hpre, List.filter_eq_self.mpr hpost]
  refine ⟨hsave, hfilter, ?_⟩
  unfold encodeVideoPts
  rw [List.length_map, hfilter]
  simp

/-- A frame of the right size for a 1x1 resolution, at 0 ms. -/
def goodA : VideoFrame := ⟨0, [1, 1, 1]⟩

/-- A second well-formed 1x1 frame, at 9 ms. -/
def goodB : VideoFrame := ⟨9, [2, 2, 2]⟩

/-- A malformed frame: 2 bytes instead of the 3 a 1x1 RGB frame needs. -/
def badFrame : VideoFrame := ⟨5, [9, 9]⟩

/-- Witness for C8: among three frames at 1x1 the single malformed one is
skipped and the other two are encoded. -/
theorem malformed_frame_skip_witness :
    save_window ([goodA] ++ badFrame :: [goodB]) [] =
      .ok ⟨false, [goodA] ++ badFrame :: [goodB], []⟩ ∧
    ([goodA] ++ badFrame :: [goodB]).filter (frameWellFormed 1 1) = [goodA] ++ [goodB] ∧
    (encodeVideoPts 1 1 ([goodA] ++ badFrame :: [goodB])).length =
      ([goodA] ++ badFrame :: [goodB]).length - 1 :=
  malformed_frame_skip 1 1 [goodA] [goodB] badFrame (by decide) (by decide) (by decide)

/-- C9: `save_last_to_mp4` never mutates the ring buffers — its step on
the state is the identity (it only clones the buffers under read locks),
so the buffer state after any operation sequence equals the state after
the push operations alone: pushes and later saves are unaffected by an
earlier (failed or successful) save. -/
theorem save_window_preserves_buffers (s : PufferState) (ops : List Op) :
    stepOp s Op.save = s ∧
    runOps s ops = runOps s (ops.filter opIsPush) := by
  refine ⟨rfl, ?_⟩
  induction ops generalizing s with
  | nil => rfl
  | cons o ops ih =>
    cases o with
    | pushV img =>
      show runOps (pushVideo s img) ops = runOps (pushVideo s img) (ops.filter opIsPush)
      exact ih (pushVideo s img)
    | pushA pkt =>
      show runOps (pushAudio s pkt) ops = runOps (pushAudio s pkt) (ops.filter opIsPush)
      exact ih (pushAudio s pkt)
    | save =>
      show runOps s ops = runOps s (ops.filter opIsPush)
      exact ih s

/-- C10: the stored millisecond timestamp of every pushed video frame and
audio chunk is the source microsecond timestamp divided by 1000 with
truncation, reduced modulo `2 ^ 32` (the `as u32` cast), so timestamps at
or beyond `2 ^ 32` milliseconds wrap: `2 ^ 32 * 1000` microseconds store
as 0, and `2 ^ 32 * 1000 + 5000` microseconds collide with 5000. -/
theorem timestamp_conversion_wraps (s : PufferState) (img : Image) (pkt : AudioPacket) :
    ((pushVideo s img).video_buf.getLast?.map fun f => f.timestamp_ms) =
      some (img.timestamp_us / 1000 % 2 ^ 32) ∧
    ((pushAudio s pkt).audio_buf.getLast?.map fun c => c.timestamp_ms) =
      some (pkt.timestamp / 1000 % 2 ^ 32) ∧
    (mkVideoFrame ⟨2 ^ 32 * 1000, []⟩).timestamp_ms = 0 ∧
    (mkVideoFrame ⟨2 ^ 32 * 1000 + 5000, []⟩).timestamp_ms =
      (mkVideoFrame ⟨5000, []⟩).timestamp_ms ∧
    (mkAudioChunk ⟨2 ^ 32 * 1000, []⟩).timestamp_ms = 0 := by
  refine ⟨?_, ?_, by decide, by decide, by decide⟩
  · simp [pushVideo, ringPush, mkVideoFrame]
  · simp [pushAudio, ringPush, mkAudioChunk]

end RoAnalyzer
